import Mathlib

/-!
Verification of the tool-call orchestration loop of `napier_cli.py`
(the method `NapierClient.process_query` and the helpers it uses),
shallowly embedded in Lean.

External collaborators are modelled as explicit oracle parameters,
mirroring that the source treats them as black boxes:
the MCP session (its `list_tools` catalog and its `call_tool` capability),
the Gemini chat (one `send` capability, indexed by the attempt number of the
`send_message` call within the query, so successive calls may answer
differently), and the standard-library JSON parser `json.loads`
(which, on the extracted blocks — all of which start with an opening
brace — either raises `JSONDecodeError` or returns a dict).
-/

namespace Napier

/-- JSON values as produced by the standard-library parser.  Numbers are
modelled as integers; no claim depends on non-integer payloads. -/
inductive Json where
  | null : Json
  | bool : Bool → Json
  | num : Int → Json
  | str : String → Json
  | arr : List Json → Json
  | obj : List (String × Json) → Json

/-- Display rendering used when a value is interpolated into an f-string
(`f"...\x7btool_name\x7d..."`).  It mirrors Python `str()` for the values the
program actually interpolates there — `None` (a missing `tool_name`) and
strings — and abbreviates containers, whose exact Python rendering no claim
depends on. -/
def Json.pyStr : Json → String
  | Json.null => "None"
  | Json.bool b => if b then "True" else "False"
  | Json.num n => toString n
  | Json.str s => s
  | Json.arr _ => "<list>"
  | Json.obj _ => "<dict>"

/-- Rendering of `tool_call.get("tool_name")`, which is `None` when the key
is absent. -/
def pyShow : Option Json → String
  | none => "None"
  | some j => j.pyStr

/-! ### The extraction pattern

`process_query` extracts tool calls with
`re.findall(r"` ```json\s*(\x7b[^`]*\x7d)\s*``` `", response_text)`.
The matcher below is a faithful model of that pattern applied by `findall`:
scan left to right, at each position try to match
the literal "```json", then greedily skip whitespace, then an opening brace,
then a greedy backtick-free run (backtracking from the longest run so that the
next character is a closing brace, followed by whitespace and the literal
"```").  The two `\s*` need no backtracking because the characters that follow
them in the pattern are not whitespace.  `findall` returns the capture
group — the brace-delimited body — of each non-overlapping match. -/

def backtick : Char := Char.ofNat 96

def lbrace : Char := Char.ofNat 123

def rbrace : Char := Char.ofNat 125

/-- Python `\s` for `str` patterns: exactly the 29 code points matched by
`re.compile(r"\s")` in Python 3 (tab through carriage return, the ASCII
separators U+001C through U+001F, space, next line U+0085, no-break space
U+00A0, Ogham space mark U+1680, the space separators U+2000 through U+200A,
line separator U+2028, paragraph separator U+2029, narrow no-break space
U+202F, medium mathematical space U+205F, and ideographic space U+3000),
verified by enumerating every code point against the Python engine. -/
def isSpaceChar (c : Char) : Bool :=
  (9 ≤ c.toNat && c.toNat ≤ 13) ||
  (28 ≤ c.toNat && c.toNat ≤ 32) ||
  c.toNat = 133 || c.toNat = 160 || c.toNat = 5760 ||
  (8192 ≤ c.toNat && c.toNat ≤ 8202) ||
  c.toNat = 8232 || c.toNat = 8233 ||
  c.toNat = 8239 || c.toNat = 8287 || c.toNat = 12288

/-- The literal "```" closing a fenced block. -/
def fenceLit : List Char := "```".data

/-- The literal "```json" opening a tagged block. -/
def openLit : List Char := "```json".data

/-- Match a literal at the head of the input, returning the rest. -/
def stripLit : List Char → List Char → Option (List Char)
  | [], s => some s
  | _ :: _, [] => none
  | l :: ls, c :: cs => if c = l then stripLit ls cs else none

/-- One attempt of the backtracking body match: take the first `L` characters
of the backtick-free run as the `[^`]*` part and require a closing brace,
then `\s*`, then the closing fence. -/
def attemptClose (run rest0 : List Char) (L : Nat) : Option (List Char × List Char) :=
  match run.drop L ++ rest0 with
  | c :: after =>
    if c = rbrace then
      match stripLit fenceLit (after.dropWhile isSpaceChar) with
      | some rest => some (run.take L, rest)
      | none => none
    else none
  | [] => none

/-- Greedy backtracking: try the longest `[^`]*` first, then shorter ones. -/
def tryClose (run rest0 : List Char) : Nat → Option (List Char × List Char)
  | 0 => attemptClose run rest0 0
  | L + 1 =>
    match attemptClose run rest0 (L + 1) with
    | some res => some res
    | none => tryClose run rest0 L

/-- Match the whole pattern anchored at the head of `s`.  On success, return
the capture group (the brace-delimited body, braces included) and the input
remaining after the match. -/
def matchAt (s : List Char) : Option (List Char × List Char) :=
  match stripLit openLit s with
  | none => none
  | some s1 =>
    match s1.dropWhile isSpaceChar with
    | [] => none
    | c :: s3 =>
      if c = lbrace then
        match tryClose (s3.takeWhile (fun d => d ≠ backtick))
            (s3.dropWhile (fun d => d ≠ backtick))
            (s3.takeWhile (fun d => d ≠ backtick)).length with
        | some (body, rest) => some (lbrace :: body ++ [rbrace], rest)
        | none => none
      else none

/-- Left-to-right scan of `re.findall`: at each position try the pattern;
on a match, record the capture and continue after the match, otherwise
advance one character.  The fuel starts at the length of the input and each
step consumes at least one character of it, so it never runs out. -/
def findAllAux : Nat → List Char → List (List Char)
  | 0, _ => []
  | _ + 1, [] => []
  | fuel + 1, c :: rest =>
    match matchAt (c :: rest) with
    | some (cap, after) => cap :: findAllAux fuel after
    | none => findAllAux fuel rest

/-- All captures of the tool-call pattern in the text, in order of
appearance. -/
def findAll (s : List Char) : List (List Char) :=
  findAllAux s.length s

/-! ### Data model -/

/-- A tool advertised by the connected server.  The input schema is kept in
its serialized form: the source only ever uses `tool.inputSchema` through
`json.dumps`, and the value itself comes opaquely from the session. -/
structure ToolDescriptor where
  name : String
  description : String
  input_schema : String
deriving DecidableEq

/-- The payload returned by `session.call_tool`; the source interpolates
`result.content` into strings, so it is kept as text. -/
structure ToolResult where
  content : String
deriving DecidableEq

/-- The attached MCP session: its advertised tool catalog (`list_tools`)
and its call capability (`call_tool`), which may raise (modelled as
`Except.error` with the message `str(e)`).  The tool name argument is
`tool_call.get("tool_name")`, which is `None` when the key is absent. -/
structure Session where
  tools : List ToolDescriptor
  call_tool : Option Json → Json → Except String ToolResult

/-- Roles of conversation turns as stored in `self.chat_history`. -/
inductive Role where
  | user : Role
  | model : Role
deriving DecidableEq

/-- One entry of `self.chat_history`: `\x7b"role": ..., "parts": [...]\x7d`. -/
structure Turn where
  role : Role
  parts : List String
deriving DecidableEq

/-- Number of model-role turns in a history. -/
def modelCount (hist : List Turn) : Nat :=
  hist.countP (fun t => t.role == Role.model)

/-! ### Prompt composition -/

/-- The `tools_description` accumulator of `process_query`. -/
def toolsDescription (tools : List ToolDescriptor) : String :=
  tools.foldl
    (fun acc tool =>
      acc ++ "- " ++ tool.name ++ ": " ++ tool.description ++ "\n" ++
        "  Input schema: " ++ tool.input_schema ++ "\n\n")
    "You have access to the following tools:\n\n"

/-- The `system_prompt` f-string of `process_query`. -/
def systemPrompt (tools : List ToolDescriptor) : String :=
  "You are an AI assistant that helps users interact with various applications through tools.\n"
    ++ toolsDescription tools
    ++ "\n\nINSTRUCTIONS:\n"
    ++ "1. Analyze the user\x27s request carefully.\n"
    ++ "2. If a tool is needed to fulfill the request, decide which tool to use.\n"
    ++ "3. Format your tool calls as JSON, wrapped in triple backticks with the \x27json\x27 tag.\n"
    ++ "4. Example tool call format:\n"
    ++ "```json\n\x7b\n  \"tool_name\": \"tool_name_here\",\n  \"parameters\": \x7b\n    \"param1\": \"value1\",\n    \"param2\": \"value2\"\n  \x7d\n\x7d\n```\n"
    ++ "5. After receiving tool results, provide a helpful response that incorporates the information.\n"
    ++ "6. If no tool is needed, respond directly to the user\x27s request.\n"
    ++ "\nAlways make sure to follow the exact input schema for each tool when making a call."

/-- The per-result marker `f"\n[Tool Result: \x7btool_name\x7d]\n\x7bresult.content\x7d\n"`
appended to `final_response` after a successful dispatch. -/
def resultStr (tool_name : Option Json) (result : ToolResult) : String :=
  "\n[Tool Result: " ++ pyShow tool_name ++ "]\n" ++ result.content ++ "\n"

/-- The `followup_system_prompt` f-string sent back to the model after a
successful dispatch. -/
def followupPrompt (tool_name : Option Json) (result : ToolResult) : String :=
  "The tool \x27" ++ pyShow tool_name ++ "\x27 returned the following result:\n\n"
    ++ result.content
    ++ "\n\nPlease analyze this result and provide a helpful response to the user based on this information."

/-- Message returned when `self.session` is `None` (line 100 of the source). -/
def noSessionMsg : String :=
  "Error: Not connected to any MCP server. Use \x27connect\x27 command first."

/-- Inline diagnostic of the `json.JSONDecodeError` handler. -/
def invalidJsonMsg : String :=
  "Error: Invalid tool call format detected."

/-- Inline diagnostic of the per-invocation `Exception` handler. -/
def execErrMsg (e : String) : String :=
  "Error executing tool: " ++ e

/-- Message of the outer exception handler of `process_query`. -/
def queryErrMsg (e : String) : String :=
  "Error processing query: " ++ e

/-! ### The orchestration loop -/

/-- State threaded through the per-invocation `for` loop of `process_query`:
the `final_response` buffer, `self.chat_history`, the index of the next
`send_message` attempt, and (instrumentation) the list of `call_tool`
invocations issued so far, in order. -/
structure LoopState where
  pieces : List String
  history : List Turn
  counter : Nat
  calls : List (Option Json × Json)

/-- The `for tool_call_json in tool_calls` loop of `process_query`.
Each iteration: parse the block (`json.loads`); on `JSONDecodeError`
append the inline diagnostic and continue; otherwise read
`tool_call.get("tool_name")` and `tool_call.get("parameters", \x7b\x7d)`,
invoke `session.call_tool` with them, and on success append the result
marker, send the follow-up prompt to the model, and on its success append
the reply to both `final_response` and `self.chat_history`.  Any failure
raised by `call_tool` or by the follow-up `send_message` is caught by the
per-invocation `except Exception` handler, which appends an inline
diagnostic; the loop then continues with the next block. -/
def processCalls (sess : Session)
    (loads : String → Except Unit (List (String × Json)))
    (send : Nat → List String → Except String String) :
    List String → LoopState → LoopState
  | [], st => st
  | tc :: rest, st =>
    match loads tc with
    | Except.error _ =>
      processCalls sess loads send rest
        { st with pieces := st.pieces ++ [invalidJsonMsg] }
    | Except.ok tool_call =>
      let tool_name := List.lookup "tool_name" tool_call
      let parameters := (List.lookup "parameters" tool_call).getD (Json.obj [])
      let st1 := { st with calls := st.calls ++ [(tool_name, parameters)] }
      match sess.call_tool tool_name parameters with
      | Except.error e =>
        processCalls sess loads send rest
          { st1 with pieces := st1.pieces ++ [execErrMsg e] }
      | Except.ok result =>
        match send st1.counter [followupPrompt tool_name result] with
        | Except.error e =>
          processCalls sess loads send rest
            { st1 with
                pieces := st1.pieces ++ [resultStr tool_name result, execErrMsg e],
                counter := st1.counter + 1 }
        | Except.ok followup_text =>
          processCalls sess loads send rest
            { st1 with
                pieces := st1.pieces ++ [resultStr tool_name result, followup_text],
                history := st1.history ++ [⟨Role.model, [followup_text]⟩],
                counter := st1.counter + 1 }

/-- The `tool_calls` extracted from a model response:
`re.findall(tool_call_pattern, response_text)`. -/
def toolCallsOf (response_text : String) : List String :=
  (findAll response_text.data).map (fun cs => String.mk cs)

/-- Outcome of one `process_query` call: the returned answer string, the
`final_response` buffer it was joined from (empty on the paths that do not
build it), the updated `self.chat_history`, and (instrumentation) the
ordered list of `call_tool` invocations issued. -/
structure QueryOutcome where
  answer : String
  pieces : List String
  history : List Turn
  calls : List (Option Json × Json)

/-- Shallow embedding of `NapierClient.process_query`.
`session` is `self.session`; `loads` models `json.loads` on the extracted
blocks (each starts with an opening brace, so a successful parse is a dict);
`send` models the chat capability (`start_chat` + `send_message`), indexed by
attempt number, with attempt `0` receiving `[system_prompt, query]` and later
attempts the follow-up prompts; a `send` failure on attempt `0` is caught by
the outer handler.  `chat_history` is `self.chat_history` on entry. -/
def process_query (session : Option Session)
    (loads : String → Except Unit (List (String × Json)))
    (send : Nat → List String → Except String String)
    (chat_history : List Turn) (query : String) : QueryOutcome :=
  match session with
  | none => ⟨noSessionMsg, [], chat_history, []⟩
  | some sess =>
    let history1 := chat_history ++ [⟨Role.user, [query]⟩]
    let system_prompt := systemPrompt sess.tools
    match send 0 [system_prompt, query] with
    | Except.error e => ⟨queryErrMsg e, [], history1, []⟩
    | Except.ok response_text =>
      let history2 := history1 ++ [⟨Role.model, [response_text]⟩]
      let tool_calls := toolCallsOf response_text
      if tool_calls.isEmpty then
        ⟨response_text, [], history2, []⟩
      else
        let st := processCalls sess loads send tool_calls ⟨[], history2, 1, []⟩
        ⟨String.intercalate "\n" st.pieces, st.pieces, st.history, st.calls⟩

/-! ### Derived notions used by the theorems -/

/-- The `(tool_name, parameters)` pair a parsed block is dispatched with. -/
def entryOf (kvs : List (String × Json)) : Option Json × Json :=
  (List.lookup "tool_name" kvs, (List.lookup "parameters" kvs).getD (Json.obj []))

/-- The dispatch a block gives rise to, if it parses. -/
def parseEntry (loads : String → Except Unit (List (String × Json)))
    (tc : String) : Option (Option Json × Json) :=
  match loads tc with
  | Except.error _ => none
  | Except.ok kvs => some (entryOf kvs)

/-- The `final_response` pieces produced by a run of the loop in which every
block parses (to `jf`), every dispatch succeeds (with `resf`), and every
follow-up succeeds (with `reply`): for each block, the result marker followed
by the model reply. -/
def successPieces (jf : String → List (String × Json))
    (resf : Option Json → Json → ToolResult)
    (reply : Nat → List String → String) : Nat → List String → List String
  | _, [] => []
  | k, tc :: rest =>
    resultStr (entryOf (jf tc)).1 (resf (entryOf (jf tc)).1 (entryOf (jf tc)).2)
      :: reply k [followupPrompt (entryOf (jf tc)).1 (resf (entryOf (jf tc)).1 (entryOf (jf tc)).2)]
      :: successPieces jf resf reply (k + 1) rest

/-- The model turns appended to the history by such a fully successful run:
one follow-up reply per block. -/
def successTurns (jf : String → List (String × Json))
    (resf : Option Json → Json → ToolResult)
    (reply : Nat → List String → String) : Nat → List String → List Turn
  | _, [] => []
  | k, tc :: rest =>
    ⟨Role.model, [reply k [followupPrompt (entryOf (jf tc)).1
        (resf (entryOf (jf tc)).1 (entryOf (jf tc)).2)]]⟩
      :: successTurns jf resf reply (k + 1) rest

/-! ### Concrete instances used for witnesses and counterexamples

These instantiate the oracle parameters: a catalog entry, sessions whose
`call_tool` behaves in fixed ways, parser oracles, and chat oracles built
from a fixed first response. -/

/-- The example tool of the spec (section 8 test scenario). -/
def echoTool : ToolDescriptor :=
  ⟨"echo", "echoes input", "\x7b\"text\": \"string\"\x7d"⟩

/-- A session whose every call succeeds with a fixed payload. -/
def sessOk : Session := ⟨[echoTool], fun _ _ => Except.ok ⟨"RESULT"⟩⟩

/-- A session with an empty catalog whose server rejects every call. -/
def sessEmpty : Session := ⟨[], fun _ _ => Except.error "Unknown tool"⟩

/-- A session that rejects calls carrying no tool name and accepts the
rest. -/
def sessStrict : Session :=
  ⟨[echoTool], fun n _ =>
    match n with
    | none => Except.error "tool name must be a string"
    | some _ => Except.ok ⟨"RESULT"⟩⟩

/-- A parser oracle that parses every block to a dict naming `echo`. -/
def loadsEcho : String → Except Unit (List (String × Json)) :=
  fun _ => Except.ok [("tool_name", Json.str "echo")]

/-- A parser oracle that fails on every block (invalid JSON). -/
def loadsNever : String → Except Unit (List (String × Json)) :=
  fun _ => Except.error ()

/-- The parse function certifying `loadsEcho`. -/
def jfEcho : String → List (String × Json) :=
  fun _ => [("tool_name", Json.str "echo")]

/-- The result function certifying `sessOk`. -/
def resfOk : Option Json → Json → ToolResult := fun _ _ => ⟨"RESULT"⟩

/-- A model response with one well-formed tagged block. -/
def respOne : String := "```json\x7b\"tool_name\": \"echo\"\x7d```"

/-- The block contained in `respOne`. -/
def blockOne : String := "\x7b\"tool_name\": \"echo\"\x7d"

/-- A model response with two tagged blocks, the first lacking `tool_name`. -/
def respTwo : String :=
  "```json\x7b\"parameters\": \x7b\x7d\x7d``` ```json\x7b\"tool_name\": \"echo\"\x7d```"

/-- The first block of `respTwo`: valid JSON with no `tool_name` key. -/
def blockNoName : String := "\x7b\"parameters\": \x7b\x7d\x7d"

/-- A json-fenced block whose JSON body contains a backtick character. -/
def respBT : String := "```json \x7b\"a\": \"b`c\"\x7d ```"

/-- A model response with no tagged block at all. -/
def respPlain : String := "Hello! No tools needed."

/-- A reply oracle: attempt 0 answers with the given first response, every
later attempt with a fixed follow-up text. -/
def replyWith (first : String) : Nat → List String → String :=
  fun k _ => if k = 0 then first else "FOLLOWUP"

/-- The always-succeeding chat oracle induced by `replyWith`. -/
def sendWith (first : String) : Nat → List String → Except String String :=
  fun k m => Except.ok (replyWith first k m)

/-- A chat oracle whose follow-up attempts all fail. -/
def sendFirstOnly (first : String) : Nat → List String → Except String String :=
  fun k _ => if k = 0 then Except.ok first else Except.error "model unavailable"

/-- A parser oracle for the two-block scenario: the block lacking a name
parses to a dict without `tool_name`, anything else to the echo call. -/
def loadsTwo : String → Except Unit (List (String × Json)) :=
  fun s =>
    if s = blockNoName then Except.ok [("parameters", Json.obj [])]
    else Except.ok [("tool_name", Json.str "echo")]

/-! ### Helper lemmas about the extraction pattern -/


theorem attemptClose_body (run rest0 : List Char) (L : Nat) (body rest : List Char)
    (h : attemptClose run rest0 L = some (body, rest)) : body = run.take L := by
  unfold attemptClose at h
  repeat' split at h
  all_goals simp_all

theorem tryClose_body (run rest0 : List Char) (L : Nat) (body rest : List Char)
    (h : tryClose run rest0 L = some (body, rest)) : ∃ n, body = run.take n := by
  induction L with
  | zero => exact ⟨0, attemptClose_body run rest0 0 body rest h⟩
  | succ L ih =>
    unfold tryClose at h
    split at h
    · next res heq =>
      rw [h] at heq
      exact ⟨L + 1, attemptClose_body run rest0 (L + 1) body rest heq⟩
    · exact ih h

theorem matchAt_no_backtick (s cap after : List Char)
    (h : matchAt s = some (cap, after)) : backtick ∉ cap := by
  unfold matchAt at h
  split at h
  · simp at h
  · split at h
    · simp at h
    · split at h
      · split at h
        · next body rest heq =>
          simp only [Option.some.injEq, Prod.mk.injEq] at h
          obtain ⟨hcap, -⟩ := h
          obtain ⟨n, hn⟩ := tryClose_body _ _ _ _ _ heq
          subst hn
          rw [← hcap]
          intro hmem
          rcases List.mem_cons.mp hmem with h1 | h1
          · exact absurd h1 (by decide)
          · rcases List.mem_append.mp h1 with h2 | h2
            · have h3 := List.mem_takeWhile_imp (List.take_subset n _ h2)
              simp at h3
            · simp at h2
              exact absurd h2 (by decide)
        · simp at h
      · simp at h

theorem findAllAux_no_backtick (fuel : Nat) :
    ∀ s cap, cap ∈ findAllAux fuel s → backtick ∉ cap := by
  induction fuel with
  | zero => intro s cap h; exact absurd h (by simp [findAllAux])
  | succ fuel ih =>
    intro s cap h
    match s with
    | [] => exact absurd h (by simp [findAllAux])
    | c :: rest =>
      unfold findAllAux at h
      split at h
      · next cap2 after heq =>
        rcases List.mem_cons.mp h with h1 | h1
        · exact h1 ▸ matchAt_no_backtick _ _ _ heq
        · exact ih after cap h1
      · exact ih rest cap h

/-! ### Step equations for the per-invocation loop -/

theorem processCalls_nil (sess : Session)
    (loads : String → Except Unit (List (String × Json)))
    (send : Nat → List String → Except String String) (st : LoopState) :
    processCalls sess loads send [] st = st := rfl

theorem processCalls_cons_perr (sess : Session)
    (loads : String → Except Unit (List (String × Json)))
    (send : Nat → List String → Except String String)
    (tc : String) (rest : List String) (st : LoopState) (u : Unit)
    (hl : loads tc = Except.error u) :
    processCalls sess loads send (tc :: rest) st
      = processCalls sess loads send rest
          { st with pieces := st.pieces ++ [invalidJsonMsg] } := by
  conv_lhs => unfold processCalls
  simp only [hl]

theorem processCalls_cons_cerr (sess : Session)
    (loads : String → Except Unit (List (String × Json)))
    (send : Nat → List String → Except String String)
    (tc : String) (rest : List String) (st : LoopState)
    (kvs : List (String × Json)) (e : String)
    (hl : loads tc = Except.ok kvs)
    (hc : sess.call_tool (entryOf kvs).1 (entryOf kvs).2 = Except.error e) :
    processCalls sess loads send (tc :: rest) st
      = processCalls sess loads send rest
          { st with
              pieces := st.pieces ++ [execErrMsg e],
              calls := st.calls ++ [entryOf kvs] } := by
  conv_lhs => unfold processCalls
  simp only [entryOf] at hc
  simp only [hl, hc]
  rfl

theorem processCalls_cons_serr (sess : Session)
    (loads : String → Except Unit (List (String × Json)))
    (send : Nat → List String → Except String String)
    (tc : String) (rest : List String) (st : LoopState)
    (kvs : List (String × Json)) (result : ToolResult) (e : String)
    (hl : loads tc = Except.ok kvs)
    (hc : sess.call_tool (entryOf kvs).1 (entryOf kvs).2 = Except.ok result)
    (hs : send st.counter [followupPrompt (entryOf kvs).1 result] = Except.error e) :
    processCalls sess loads send (tc :: rest) st
      = processCalls sess loads send rest
          { st with
              pieces := st.pieces ++ [resultStr (entryOf kvs).1 result, execErrMsg e],
              counter := st.counter + 1,
              calls := st.calls ++ [entryOf kvs] } := by
  conv_lhs => unfold processCalls
  simp only [entryOf] at hc hs
  simp only [hl, hc, hs]
  rfl

theorem processCalls_cons_ok (sess : Session)
    (loads : String → Except Unit (List (String × Json)))
    (send : Nat → List String → Except String String)
    (tc : String) (rest : List String) (st : LoopState)
    (kvs : List (String × Json)) (result : ToolResult) (t : String)
    (hl : loads tc = Except.ok kvs)
    (hc : sess.call_tool (entryOf kvs).1 (entryOf kvs).2 = Except.ok result)
    (hs : send st.counter [followupPrompt (entryOf kvs).1 result] = Except.ok t) :
    processCalls sess loads send (tc :: rest) st
      = processCalls sess loads send rest
          { st with
              pieces := st.pieces ++ [resultStr (entryOf kvs).1 result, t],
              history := st.history ++ [⟨Role.model, [t]⟩],
              counter := st.counter + 1,
              calls := st.calls ++ [entryOf kvs] } := by
  conv_lhs => unfold processCalls
  simp only [entryOf] at hc hs
  simp only [hl, hc, hs]
  rfl

/-! ### Characterizations of the loop -/

theorem processCalls_calls (sess : Session)
    (loads : String → Except Unit (List (String × Json)))
    (send : Nat → List String → Except String String) :
    ∀ (blocks : List String) (st : LoopState),
    (processCalls sess loads send blocks st).calls
      = st.calls ++ blocks.filterMap (parseEntry loads) := by
  intro blocks
  induction blocks with
  | nil => intro st; simp [processCalls_nil]
  | cons tc rest ih =>
    intro st
    cases hl : loads tc with
    | error u =>
      rw [processCalls_cons_perr sess loads send tc rest st u hl, ih]
      simp [parseEntry, hl]
    | ok kvs =>
      cases hc : sess.call_tool (entryOf kvs).1 (entryOf kvs).2 with
      | error e =>
        rw [processCalls_cons_cerr sess loads send tc rest st kvs e hl hc, ih]
        simp [parseEntry, hl]
      | ok result =>
        cases hs : send st.counter [followupPrompt (entryOf kvs).1 result] with
        | error e =>
          rw [processCalls_cons_serr sess loads send tc rest st kvs result e hl hc hs, ih]
          simp [parseEntry, hl]
        | ok t =>
          rw [processCalls_cons_ok sess loads send tc rest st kvs result t hl hc hs, ih]
          simp [parseEntry, hl]

theorem processCalls_history_ext (sess : Session)
    (loads : String → Except Unit (List (String × Json)))
    (send : Nat → List String → Except String String) :
    ∀ (blocks : List String) (st : LoopState),
    ∃ t, (processCalls sess loads send blocks st).history = st.history ++ t := by
  intro blocks
  induction blocks with
  | nil => intro st; exact ⟨[], by simp [processCalls_nil]⟩
  | cons tc rest ih =>
    intro st
    cases hl : loads tc with
    | error u =>
      obtain ⟨t, ht⟩ := ih { st with pieces := st.pieces ++ [invalidJsonMsg] }
      exact ⟨t, by rw [processCalls_cons_perr sess loads send tc rest st u hl]; exact ht⟩
    | ok kvs =>
      cases hc : sess.call_tool (entryOf kvs).1 (entryOf kvs).2 with
      | error e =>
        obtain ⟨t, ht⟩ := ih { st with
          pieces := st.pieces ++ [execErrMsg e],
          calls := st.calls ++ [entryOf kvs] }
        exact ⟨t, by rw [processCalls_cons_cerr sess loads send tc rest st kvs e hl hc]; exact ht⟩
      | ok result =>
        cases hs : send st.counter [followupPrompt (entryOf kvs).1 result] with
        | error e =>
          obtain ⟨t, ht⟩ := ih { st with
            pieces := st.pieces ++ [resultStr (entryOf kvs).1 result, execErrMsg e],
            counter := st.counter + 1,
            calls := st.calls ++ [entryOf kvs] }
          exact ⟨t, by rw [processCalls_cons_serr sess loads send tc rest st kvs result e hl hc hs]; exact ht⟩
        | ok t =>
          obtain ⟨u2, hu⟩ := ih { st with
            pieces := st.pieces ++ [resultStr (entryOf kvs).1 result, t],
            history := st.history ++ [⟨Role.model, [t]⟩],
            counter := st.counter + 1,
            calls := st.calls ++ [entryOf kvs] }
          refine ⟨⟨Role.model, [t]⟩ :: u2, ?_⟩
          rw [processCalls_cons_ok sess loads send tc rest st kvs result t hl hc hs, hu]
          simp

theorem processCalls_pieces_ext (sess : Session)
    (loads : String → Except Unit (List (String × Json)))
    (send : Nat → List String → Except String String) :
    ∀ (blocks : List String) (st : LoopState),
    ∃ t, (processCalls sess loads send blocks st).pieces = st.pieces ++ t := by
  intro blocks
  induction blocks with
  | nil => intro st; exact ⟨[], by simp [processCalls_nil]⟩
  | cons tc rest ih =>
    intro st
    cases hl : loads tc with
    | error u =>
      obtain ⟨t, ht⟩ := ih { st with pieces := st.pieces ++ [invalidJsonMsg] }
      refine ⟨invalidJsonMsg :: t, ?_⟩
      rw [processCalls_cons_perr sess loads send tc rest st u hl, ht]
      simp
    | ok kvs =>
      cases hc : sess.call_tool (entryOf kvs).1 (entryOf kvs).2 with
      | error e =>
        obtain ⟨t, ht⟩ := ih { st with
          pieces := st.pieces ++ [execErrMsg e],
          calls := st.calls ++ [entryOf kvs] }
        refine ⟨execErrMsg e :: t, ?_⟩
        rw [processCalls_cons_cerr sess loads send tc rest st kvs e hl hc, ht]
        simp
      | ok result =>
        cases hs : send st.counter [followupPrompt (entryOf kvs).1 result] with
        | error e =>
          obtain ⟨t, ht⟩ := ih { st with
            pieces := st.pieces ++ [resultStr (entryOf kvs).1 result, execErrMsg e],
            counter := st.counter + 1,
            calls := st.calls ++ [entryOf kvs] }
          refine ⟨resultStr (entryOf kvs).1 result :: execErrMsg e :: t, ?_⟩
          rw [processCalls_cons_serr sess loads send tc rest st kvs result e hl hc hs, ht]
          simp
        | ok t =>
          obtain ⟨u2, hu⟩ := ih { st with
            pieces := st.pieces ++ [resultStr (entryOf kvs).1 result, t],
            history := st.history ++ [⟨Role.model, [t]⟩],
            counter := st.counter + 1,
            calls := st.calls ++ [entryOf kvs] }
          refine ⟨resultStr (entryOf kvs).1 result :: t :: u2, ?_⟩
          rw [processCalls_cons_ok sess loads send tc rest st kvs result t hl hc hs, hu]
          simp

theorem processCalls_perr_mem (sess : Session)
    (loads : String → Except Unit (List (String × Json)))
    (send : Nat → List String → Except String String) :
    ∀ (blocks : List String) (st : LoopState) (tc : String) (u : Unit),
    tc ∈ blocks → loads tc = Except.error u →
    invalidJsonMsg ∈ (processCalls sess loads send blocks st).pieces := by
  intro blocks
  induction blocks with
  | nil => intro st tc u h; exact absurd h (List.not_mem_nil tc)
  | cons a rest ih =>
    intro st tc u hmem hl
    rcases List.mem_cons.mp hmem with heq | hmem2
    · subst heq
      rw [processCalls_cons_perr sess loads send tc rest st u hl]
      obtain ⟨t, ht⟩ := processCalls_pieces_ext sess loads send rest
        { st with pieces := st.pieces ++ [invalidJsonMsg] }
      rw [ht]
      simp
    · cases ha : loads a with
      | error u2 =>
        rw [processCalls_cons_perr sess loads send a rest st u2 ha]
        exact ih _ tc u hmem2 hl
      | ok kvs =>
        cases hc : sess.call_tool (entryOf kvs).1 (entryOf kvs).2 with
        | error e =>
          rw [processCalls_cons_cerr sess loads send a rest st kvs e ha hc]
          exact ih _ tc u hmem2 hl
        | ok result =>
          cases hs : send st.counter [followupPrompt (entryOf kvs).1 result] with
          | error e =>
            rw [processCalls_cons_serr sess loads send a rest st kvs result e ha hc hs]
            exact ih _ tc u hmem2 hl
          | ok t =>
            rw [processCalls_cons_ok sess loads send a rest st kvs result t ha hc hs]
            exact ih _ tc u hmem2 hl

theorem processCalls_cerr_mem (sess : Session)
    (loads : String → Except Unit (List (String × Json)))
    (send : Nat → List String → Except String String) :
    ∀ (blocks : List String) (st : LoopState) (tc : String)
      (kvs : List (String × Json)) (e : String),
    tc ∈ blocks → loads tc = Except.ok kvs →
    sess.call_tool (entryOf kvs).1 (entryOf kvs).2 = Except.error e →
    execErrMsg e ∈ (processCalls sess loads send blocks st).pieces := by
  intro blocks
  induction blocks with
  | nil => intro st tc kvs e h; exact absurd h (List.not_mem_nil tc)
  | cons a rest ih =>
    intro st tc kvs e hmem hl hcall
    rcases List.mem_cons.mp hmem with heq | hmem2
    · subst heq
      rw [processCalls_cons_cerr sess loads send tc rest st kvs e hl hcall]
      obtain ⟨t, ht⟩ := processCalls_pieces_ext sess loads send rest
        { st with
            pieces := st.pieces ++ [execErrMsg e],
            calls := st.calls ++ [entryOf kvs] }
      rw [ht]
      simp
    · cases ha : loads a with
      | error u2 =>
        rw [processCalls_cons_perr sess loads send a rest st u2 ha]
        exact ih _ tc kvs e hmem2 hl hcall
      | ok kvs2 =>
        cases hc : sess.call_tool (entryOf kvs2).1 (entryOf kvs2).2 with
        | error e2 =>
          rw [processCalls_cons_cerr sess loads send a rest st kvs2 e2 ha hc]
          exact ih _ tc kvs e hmem2 hl hcall
        | ok result =>
          cases hs : send st.counter [followupPrompt (entryOf kvs2).1 result] with
          | error e2 =>
            rw [processCalls_cons_serr sess loads send a rest st kvs2 result e2 ha hc hs]
            exact ih _ tc kvs e hmem2 hl hcall
          | ok t =>
            rw [processCalls_cons_ok sess loads send a rest st kvs2 result t ha hc hs]
            exact ih _ tc kvs e hmem2 hl hcall

theorem processCalls_success (sess : Session)
    (loads : String → Except Unit (List (String × Json)))
    (send : Nat → List String → Except String String)
    (jf : String → List (String × Json))
    (resf : Option Json → Json → ToolResult)
    (reply : Nat → List String → String) :
    ∀ (blocks : List String) (ps : List String) (hist : List Turn) (k : Nat)
      (cs : List (Option Json × Json)),
    (∀ tc ∈ blocks, loads tc = Except.ok (jf tc)) →
    (∀ n p, sess.call_tool n p = Except.ok (resf n p)) →
    (∀ k2 m, send k2 m = Except.ok (reply k2 m)) →
    processCalls sess loads send blocks ⟨ps, hist, k, cs⟩
      = ⟨ps ++ successPieces jf resf reply k blocks,
         hist ++ successTurns jf resf reply k blocks,
         k + blocks.length,
         cs ++ blocks.map (fun tc => entryOf (jf tc))⟩ := by
  intro blocks
  induction blocks with
  | nil =>
    intro ps hist k cs _ _ _
    simp [processCalls_nil, successPieces, successTurns]
  | cons tc rest ih =>
    intro ps hist k cs hl hc hs
    have hl1 : loads tc = Except.ok (jf tc) := hl tc (by simp)
    rw [processCalls_cons_ok sess loads send tc rest ⟨ps, hist, k, cs⟩ (jf tc)
        (resf (entryOf (jf tc)).1 (entryOf (jf tc)).2)
        (reply k [followupPrompt (entryOf (jf tc)).1 (resf (entryOf (jf tc)).1 (entryOf (jf tc)).2)])
        hl1 (hc _ _) (hs _ _)]
    rw [show ({ (⟨ps, hist, k, cs⟩ : LoopState) with
          pieces := ps ++ [resultStr (entryOf (jf tc)).1 (resf (entryOf (jf tc)).1 (entryOf (jf tc)).2),
            reply k [followupPrompt (entryOf (jf tc)).1 (resf (entryOf (jf tc)).1 (entryOf (jf tc)).2)]],
          history := hist ++ [⟨Role.model, [reply k [followupPrompt (entryOf (jf tc)).1
            (resf (entryOf (jf tc)).1 (entryOf (jf tc)).2)]]⟩],
          counter := k + 1,
          calls := cs ++ [entryOf (jf tc)] } : LoopState)
        = ⟨ps ++ [resultStr (entryOf (jf tc)).1 (resf (entryOf (jf tc)).1 (entryOf (jf tc)).2),
            reply k [followupPrompt (entryOf (jf tc)).1 (resf (entryOf (jf tc)).1 (entryOf (jf tc)).2)]],
           hist ++ [⟨Role.model, [reply k [followupPrompt (entryOf (jf tc)).1
            (resf (entryOf (jf tc)).1 (entryOf (jf tc)).2)]]⟩],
           k + 1,
           cs ++ [entryOf (jf tc)]⟩ from rfl]
    rw [ih _ _ _ _ (fun x hx => hl x (List.mem_cons_of_mem tc hx)) hc hs]
    simp only [LoopState.mk.injEq]
    refine ⟨?_, ?_, ?_, ?_⟩
    · simp [successPieces]
    · simp [successTurns]
    · simp only [List.length_cons]
      omega
    · simp

theorem successTurns_count (jf : String → List (String × Json))
    (resf : Option Json → Json → ToolResult)
    (reply : Nat → List String → String) :
    ∀ (blocks : List String) (k : Nat),
    modelCount (successTurns jf resf reply k blocks) = blocks.length := by
  intro blocks
  induction blocks with
  | nil => intro k; simp [successTurns, modelCount]
  | cons tc rest ih =>
    intro k
    simp [successTurns, modelCount, List.countP_cons] at ih ⊢
    exact ih (k + 1)

theorem modelCount_append (a b : List Turn) :
    modelCount (a ++ b) = modelCount a + modelCount b :=
  List.countP_append _ a b

/-! ### Path equations for process_query -/

theorem pq_none (loads : String → Except Unit (List (String × Json)))
    (send : Nat → List String → Except String String)
    (h : List Turn) (q : String) :
    process_query none loads send h q = ⟨noSessionMsg, [], h, []⟩ := rfl

theorem pq_senderr (sess : Session)
    (loads : String → Except Unit (List (String × Json)))
    (send : Nat → List String → Except String String)
    (h : List Turn) (q : String) (e : String)
    (hr : send 0 [systemPrompt sess.tools, q] = Except.error e) :
    process_query (some sess) loads send h q
      = ⟨queryErrMsg e, [], h ++ [⟨Role.user, [q]⟩], []⟩ := by
  simp only [process_query, hr]

theorem pq_zero (sess : Session)
    (loads : String → Except Unit (List (String × Json)))
    (send : Nat → List String → Except String String)
    (h : List Turn) (q : String) (r : String)
    (hr : send 0 [systemPrompt sess.tools, q] = Except.ok r)
    (hz : toolCallsOf r = []) :
    process_query (some sess) loads send h q
      = ⟨r, [], h ++ [⟨Role.user, [q]⟩, ⟨Role.model, [r]⟩], []⟩ := by
  simp only [process_query, hr, hz]
  simp

theorem pq_loop (sess : Session)
    (loads : String → Except Unit (List (String × Json)))
    (send : Nat → List String → Except String String)
    (h : List Turn) (q : String) (r : String)
    (hr : send 0 [systemPrompt sess.tools, q] = Except.ok r)
    (hne : toolCallsOf r ≠ []) :
    process_query (some sess) loads send h q
      = ⟨String.intercalate "\n" (processCalls sess loads send (toolCallsOf r)
            ⟨[], h ++ [⟨Role.user, [q]⟩, ⟨Role.model, [r]⟩], 1, []⟩).pieces,
         (processCalls sess loads send (toolCallsOf r)
            ⟨[], h ++ [⟨Role.user, [q]⟩, ⟨Role.model, [r]⟩], 1, []⟩).pieces,
         (processCalls sess loads send (toolCallsOf r)
            ⟨[], h ++ [⟨Role.user, [q]⟩, ⟨Role.model, [r]⟩], 1, []⟩).history,
         (processCalls sess loads send (toolCallsOf r)
            ⟨[], h ++ [⟨Role.user, [q]⟩, ⟨Role.model, [r]⟩], 1, []⟩).calls⟩ := by
  simp only [process_query, hr, List.isEmpty_eq_false.mpr hne]
  simp

/-! ### Claim theorems -/

/-- Claim C8: whenever no tool session is attached, processing a query fails
with the inline error telling the user to connect (the message of line 100 of
the source), the conversation history is left untouched, and no session call
of any kind is attempted (the call trace is empty). -/
theorem claim_C8_no_session (loads : String → Except Unit (List (String × Json)))
    (send : Nat → List String → Except String String)
    (h : List Turn) (q : String) :
    process_query none loads send h q = ⟨noSessionMsg, [], h, []⟩ := rfl

/-- Claim C5: the conversation history is append-only.  Across every path of
`process_query` — no session attached, first model call failing, zero
extracted blocks, and the per-invocation dispatch loop with any mixture of
parse failures, dispatch failures, and follow-up failures — the incoming
history is a prefix of the returned history, so its length only grows and no
previously appended turn is mutated, replaced, or removed. -/
theorem claim_C5_append_only (session : Option Session)
    (loads : String → Except Unit (List (String × Json)))
    (send : Nat → List String → Except String String)
    (h : List Turn) (q : String) :
    h <+: (process_query session loads send h q).history := by
  cases session with
  | none => exact ⟨[], by rw [pq_none]; simp⟩
  | some sess =>
    cases hr : send 0 [systemPrompt sess.tools, q] with
    | error e =>
      rw [pq_senderr sess loads send h q e hr]
      exact ⟨[⟨Role.user, [q]⟩], rfl⟩
    | ok r =>
      by_cases hz : toolCallsOf r = []
      · rw [pq_zero sess loads send h q r hr hz]
        exact ⟨[⟨Role.user, [q]⟩, ⟨Role.model, [r]⟩], rfl⟩
      · rw [pq_loop sess loads send h q r hr hz]
        obtain ⟨t, ht⟩ := processCalls_history_ext sess loads send (toolCallsOf r)
          ⟨[], h ++ [⟨Role.user, [q]⟩, ⟨Role.model, [r]⟩], 1, []⟩
        refine ⟨[⟨Role.user, [q]⟩, ⟨Role.model, [r]⟩] ++ t, ?_⟩
        rw [ht]
        simp

/-- Claim C4: if the model output contains zero tagged blocks, extraction is
empty, no tool dispatch occurs (the call trace is empty), and the final
answer is the raw model output verbatim; the history gains exactly the user
turn and the original model turn. -/
theorem claim_C4_zero_blocks (sess : Session)
    (loads : String → Except Unit (List (String × Json)))
    (send : Nat → List String → Except String String)
    (h : List Turn) (q : String) (r : String)
    (hr : send 0 [systemPrompt sess.tools, q] = Except.ok r)
    (hz : toolCallsOf r = []) :
    process_query (some sess) loads send h q
      = ⟨r, [], h ++ [⟨Role.user, [q]⟩, ⟨Role.model, [r]⟩], []⟩ :=
  pq_zero sess loads send h q r hr hz

/-- Witness for claim C4 at a concrete block-free model output. -/
theorem claim_C4_zero_blocks_witness :
    sendWith respPlain 0 [systemPrompt sessOk.tools, "hi"] = Except.ok respPlain
    ∧ toolCallsOf respPlain = []
    ∧ process_query (some sessOk) loadsEcho (sendWith respPlain) [] "hi"
        = ⟨respPlain, [], [⟨Role.user, ["hi"]⟩, ⟨Role.model, [respPlain]⟩], []⟩ :=
  ⟨rfl, by decide,
    claim_C4_zero_blocks sessOk loadsEcho (sendWith respPlain) [] "hi" respPlain rfl (by decide)⟩

/-- Claim C9: the extraction pattern excludes backticks from the block body,
so no extracted capture ever contains a backtick; consequently a json-fenced
block whose JSON body contains a backtick yields no invocation, and such an
output is treated as a plain final answer (returned verbatim, with no
dispatch and no malformed-invocation diagnostic), as shown on the concrete
response `respBT`. -/
theorem claim_C9_backtick_excluded :
    (∀ (s : List Char) (cap : List Char), cap ∈ findAll s → backtick ∉ cap)
    ∧ toolCallsOf respBT = []
    ∧ process_query (some sessOk) loadsEcho (sendWith respBT) [] "hi"
        = ⟨respBT, [], [⟨Role.user, ["hi"]⟩, ⟨Role.model, [respBT]⟩], []⟩ :=
  ⟨fun s cap h2 => findAllAux_no_backtick s.length s cap h2, by decide, rfl⟩

/-- Witness for claim C9: a concretely extracted capture, certified
backtick-free by the theorem. -/
theorem claim_C9_backtick_excluded_witness :
    blockOne.data ∈ findAll respOne.data ∧ backtick ∉ blockOne.data :=
  ⟨by decide, claim_C9_backtick_excluded.1 respOne.data blockOne.data (by decide)⟩

/-- Claim C3: for a model output whose tagged blocks are all well formed
(each parses, each dispatch succeeds, each follow-up succeeds), the dispatch
order equals the appearance order of the blocks (the call trace is the
blockwise map of the parsed invocations over the extracted list, which is in
left-to-right order), and the history grows by exactly N+1 model turns: the
original response plus one follow-up reply per block. -/
theorem claim_C3_order_and_growth (sess : Session)
    (loads : String → Except Unit (List (String × Json)))
    (send : Nat → List String → Except String String)
    (jf : String → List (String × Json))
    (resf : Option Json → Json → ToolResult)
    (reply : Nat → List String → String)
    (h : List Turn) (q : String)
    (hsend : ∀ k m, send k m = Except.ok (reply k m))
    (hloads : ∀ tc ∈ toolCallsOf (reply 0 [systemPrompt sess.tools, q]),
      loads tc = Except.ok (jf tc))
    (hcall : ∀ n p, sess.call_tool n p = Except.ok (resf n p)) :
    (process_query (some sess) loads send h q).calls
      = (toolCallsOf (reply 0 [systemPrompt sess.tools, q])).map (fun tc => entryOf (jf tc))
    ∧ modelCount (process_query (some sess) loads send h q).history
      = modelCount h + (toolCallsOf (reply 0 [systemPrompt sess.tools, q])).length + 1 := by
  have hr : send 0 [systemPrompt sess.tools, q]
      = Except.ok (reply 0 [systemPrompt sess.tools, q]) := hsend 0 _
  by_cases hz : toolCallsOf (reply 0 [systemPrompt sess.tools, q]) = []
  · rw [pq_zero sess loads send h q _ hr hz, hz]
    refine ⟨by simp, ?_⟩
    simp [modelCount_append, modelCount, List.countP_cons]
  · rw [pq_loop sess loads send h q _ hr hz]
    rw [processCalls_success sess loads send jf resf reply _ [] _ 1 [] hloads hcall hsend]
    refine ⟨by simp, ?_⟩
    simp only [modelCount_append, successTurns_count]
    simp [modelCount, List.countP_cons]
    omega

/-- Witness for claim C3 on a one-block output: one dispatch of the echo
call, and the history holds two model turns. -/
theorem claim_C3_order_and_growth_witness :
    (process_query (some sessOk) loadsEcho (sendWith respOne) [] "hi").calls
        = [(some (Json.str "echo"), Json.obj [])]
    ∧ modelCount (process_query (some sessOk) loadsEcho (sendWith respOne) [] "hi").history
        = 2 :=
  claim_C3_order_and_growth sessOk loadsEcho (sendWith respOne) jfEcho resfOk
    (replyWith respOne) [] "hi" (fun _ _ => rfl) (fun _ _ => rfl) (fun _ _ => rfl)

/-- Claim C7: for a turn with at least one dispatched invocation, all of them
successful, the final answer is the newline-join, in dispatch order, of each
tool result marker followed by the corresponding model follow-up reply
(`successPieces` is exactly that interleaving). -/
theorem claim_C7_answer_concat (sess : Session)
    (loads : String → Except Unit (List (String × Json)))
    (send : Nat → List String → Except String String)
    (jf : String → List (String × Json))
    (resf : Option Json → Json → ToolResult)
    (reply : Nat → List String → String)
    (h : List Turn) (q : String)
    (hsend : ∀ k m, send k m = Except.ok (reply k m))
    (hloads : ∀ tc ∈ toolCallsOf (reply 0 [systemPrompt sess.tools, q]),
      loads tc = Except.ok (jf tc))
    (hcall : ∀ n p, sess.call_tool n p = Except.ok (resf n p))
    (hne : toolCallsOf (reply 0 [systemPrompt sess.tools, q]) ≠ []) :
    (process_query (some sess) loads send h q).answer
      = String.intercalate "\n"
          (successPieces jf resf reply 1 (toolCallsOf (reply 0 [systemPrompt sess.tools, q]))) := by
  have hr : send 0 [systemPrompt sess.tools, q]
      = Except.ok (reply 0 [systemPrompt sess.tools, q]) := hsend 0 _
  rw [pq_loop sess loads send h q _ hr hne]
  rw [processCalls_success sess loads send jf resf reply _ [] _ 1 [] hloads hcall hsend]
  simp

/-- Witness for claim C7 on a one-block output: the answer is the result
marker for `echo` joined with the follow-up reply. -/
theorem claim_C7_answer_concat_witness :
    (process_query (some sessOk) loadsEcho (sendWith respOne) [] "hi").answer
      = "\n[Tool Result: echo]\nRESULT\n\nFOLLOWUP" :=
  claim_C7_answer_concat sessOk loadsEcho (sendWith respOne) jfEcho resfOk
    (replyWith respOne) [] "hi" (fun _ _ => rfl) (fun _ _ => rfl) (fun _ _ => rfl)
    (by decide)

/-- Claim C6: every per-invocation failure is caught at the dispatch
boundary and surfaced as an inline diagnostic, and later invocations are
still processed.  Concretely: (a) the call trace is exactly the blockwise
filter-map of the parsed invocations — every block that parses is
dispatched, no matter how earlier blocks failed, and the loop always runs to
completion (the embedding is a total function, mirroring the
`except` handlers of the source, so no exception reaches the CLI layer);
(b) a block that fails to parse contributes the invalid-format diagnostic to
the final response buffer; (c) a parsed block whose session call raises
contributes the execution-error diagnostic with the underlying message;
(d) with at least one block, the returned answer is the newline-join of that
buffer, so the diagnostics land in the final answer. -/
theorem claim_C6_failures_inline (sess : Session)
    (loads : String → Except Unit (List (String × Json)))
    (send : Nat → List String → Except String String)
    (h : List Turn) (q : String) (r : String)
    (hr : send 0 [systemPrompt sess.tools, q] = Except.ok r) :
    ((process_query (some sess) loads send h q).calls
        = (toolCallsOf r).filterMap (parseEntry loads))
    ∧ (∀ tc u, tc ∈ toolCallsOf r → loads tc = Except.error u →
        invalidJsonMsg ∈ (process_query (some sess) loads send h q).pieces)
    ∧ (∀ tc kvs e, tc ∈ toolCallsOf r → loads tc = Except.ok kvs →
        sess.call_tool (entryOf kvs).1 (entryOf kvs).2 = Except.error e →
        execErrMsg e ∈ (process_query (some sess) loads send h q).pieces)
    ∧ (toolCallsOf r ≠ [] →
        (process_query (some sess) loads send h q).answer
          = String.intercalate "\n" (process_query (some sess) loads send h q).pieces) := by
  by_cases hz : toolCallsOf r = []
  · rw [pq_zero sess loads send h q r hr hz, hz]
    refine ⟨by simp, ?_, ?_, ?_⟩
    · intro tc u htc; exact absurd htc (List.not_mem_nil tc)
    · intro tc kvs e htc; exact absurd htc (List.not_mem_nil tc)
    · intro hne; exact absurd rfl hne
  · rw [pq_loop sess loads send h q r hr hz]
    refine ⟨?_, ?_, ?_, ?_⟩
    · rw [processCalls_calls]
      simp
    · intro tc u htc hl
      exact processCalls_perr_mem sess loads send (toolCallsOf r) _ tc u htc hl
    · intro tc kvs e htc hl hc
      exact processCalls_cerr_mem sess loads send (toolCallsOf r) _ tc kvs e htc hl hc
    · intro _; rfl

/-- Witness for claim C6: on a one-block output whose block fails to parse,
the invalid-format diagnostic appears in the response buffer. -/
theorem claim_C6_failures_inline_witness :
    invalidJsonMsg ∈ (process_query (some sessOk) loadsNever (sendWith respOne) [] "hi").pieces :=
  (claim_C6_failures_inline sessOk loadsNever (sendWith respOne) [] "hi" respOne rfl).2.1
    blockOne () (by decide) rfl

/-- Counterexample to claim C1 as stated.  The catalog of `sessEmpty` is
empty, so the `echo` invocation names a tool absent from the most recently
fetched catalog; yet the call trace shows the session call capability was
invoked for it — `process_query` performs no catalog check before
dispatching — and the failure surfacing in the answer is the session error
caught by the generic handler, not a client-side UnknownTool result. -/
theorem claim_C1_counterexample :
    sessEmpty.tools = []
    ∧ (process_query (some sessEmpty) loadsEcho (sendWith respOne) [] "hi").calls
        = [(some (Json.str "echo"), Json.obj [])]
    ∧ (process_query (some sessEmpty) loadsEcho (sendWith respOne) [] "hi").answer
        = execErrMsg "Unknown tool" :=
  ⟨rfl, rfl, rfl⟩

/-- Claim C1 as amended: the dispatch loop never consults the catalog.
Every invocation that parses is forwarded to the session call capability,
whether or not its tool name occurs in `sess.tools` (the statement imposes
no condition on the catalog); if the session then raises — as a server does
for an unknown tool — the failure is caught and surfaced as an inline
diagnostic in the response buffer, and processing continues. -/
theorem claim_C1_amended (sess : Session)
    (loads : String → Except Unit (List (String × Json)))
    (send : Nat → List String → Except String String)
    (h : List Turn) (q : String) (r : String) (tc : String)
    (kvs : List (String × Json))
    (hr : send 0 [systemPrompt sess.tools, q] = Except.ok r)
    (htc : tc ∈ toolCallsOf r)
    (hl : loads tc = Except.ok kvs) :
    entryOf kvs ∈ (process_query (some sess) loads send h q).calls
    ∧ (∀ e, sess.call_tool (entryOf kvs).1 (entryOf kvs).2 = Except.error e →
        execErrMsg e ∈ (process_query (some sess) loads send h q).pieces) := by
  have hne : toolCallsOf r ≠ [] := fun hh => by rw [hh] at htc; exact absurd htc (List.not_mem_nil tc)
  rw [pq_loop sess loads send h q r hr hne]
  constructor
  · rw [processCalls_calls]
    simp only [List.nil_append, List.mem_filterMap]
    exact ⟨tc, htc, by simp [parseEntry, hl]⟩
  · intro e he
    exact processCalls_cerr_mem sess loads send (toolCallsOf r) _ tc kvs e htc hl he

/-- Witness for the amended claim C1: with an empty catalog, the echo
invocation is still dispatched to the session, and the session error shows
up inline. -/
theorem claim_C1_amended_witness :
    (some (Json.str "echo"), Json.obj [])
        ∈ (process_query (some sessEmpty) loadsEcho (sendWith respOne) [] "hi").calls
    ∧ execErrMsg "Unknown tool"
        ∈ (process_query (some sessEmpty) loadsEcho (sendWith respOne) [] "hi").pieces :=
  ⟨(claim_C1_amended sessEmpty loadsEcho (sendWith respOne) [] "hi" respOne blockOne
      [("tool_name", Json.str "echo")] rfl (by decide) rfl).1,
   (claim_C1_amended sessEmpty loadsEcho (sendWith respOne) [] "hi" respOne blockOne
      [("tool_name", Json.str "echo")] rfl (by decide) rfl).2 "Unknown tool" rfl⟩

/-- Counterexample to claim C2 as stated.  With two blocks — the first valid
JSON lacking `tool_name`, the second well formed — the claim predicts
exactly one dispatch; the call trace shows two dispatches: the block lacking
`tool_name` is dispatched with a `None` name (there is no client-side
malformed-invocation check for a missing field), the session rejects it, and
the inline diagnostic comes from the generic execution handler while the
second block is processed normally. -/
theorem claim_C2_counterexample :
    (process_query (some sessStrict) loadsTwo (sendWith respTwo) [] "hi").calls
      = [(none, Json.obj []), (some (Json.str "echo"), Json.obj [])]
    ∧ (process_query (some sessStrict) loadsTwo (sendWith respTwo) [] "hi").pieces
      = [execErrMsg "tool name must be a string",
         resultStr (some (Json.str "echo")) ⟨"RESULT"⟩, "FOLLOWUP"] :=
  ⟨rfl, rfl⟩

/-- Claim C2 as amended: a tagged block that parses as JSON but lacks
`tool_name` is not rejected client-side; it is dispatched with a `None` tool
name.  If the session call then fails, the inline execution-error diagnostic
appears in the response buffer; sibling blocks are unaffected — each block of
the same output that parses is dispatched as well.  (With two blocks, one
lacking `tool_name` whose dispatch the session rejects and one valid, two
dispatches occur and one inline error appears.) -/
theorem claim_C2_amended (sess : Session)
    (loads : String → Except Unit (List (String × Json)))
    (send : Nat → List String → Except String String)
    (h : List Turn) (q : String) (r : String) (tc : String)
    (kvs : List (String × Json))
    (hr : send 0 [systemPrompt sess.tools, q] = Except.ok r)
    (htc : tc ∈ toolCallsOf r)
    (hl : loads tc = Except.ok kvs)
    (hname : List.lookup "tool_name" kvs = none) :
    (none, (List.lookup "parameters" kvs).getD (Json.obj []))
        ∈ (process_query (some sess) loads send h q).calls
    ∧ (∀ e, sess.call_tool none ((List.lookup "parameters" kvs).getD (Json.obj []))
          = Except.error e →
        execErrMsg e ∈ (process_query (some sess) loads send h q).pieces)
    ∧ (∀ tc2 kvs2, tc2 ∈ toolCallsOf r → loads tc2 = Except.ok kvs2 →
        entryOf kvs2 ∈ (process_query (some sess) loads send h q).calls) := by
  have hne : toolCallsOf r ≠ [] := fun hh => by rw [hh] at htc; exact absurd htc (List.not_mem_nil tc)
  have hentry : entryOf kvs = (none, (List.lookup "parameters" kvs).getD (Json.obj [])) := by
    simp [entryOf, hname]
  refine ⟨?_, ?_, ?_⟩
  · rw [pq_loop sess loads send h q r hr hne, processCalls_calls]
    simp only [List.nil_append, List.mem_filterMap]
    exact ⟨tc, htc, by simp [parseEntry, hl, hentry]⟩
  · intro e he
    rw [pq_loop sess loads send h q r hr hne]
    refine processCalls_cerr_mem sess loads send (toolCallsOf r) _ tc kvs e htc hl ?_
    rw [hentry]
    exact he
  · intro tc2 kvs2 htc2 hl2
    rw [pq_loop sess loads send h q r hr hne, processCalls_calls]
    simp only [List.nil_append, List.mem_filterMap]
    exact ⟨tc2, htc2, by simp [parseEntry, hl2]⟩

/-- Witness for the amended claim C2 on the two-block output: the nameless
dispatch occurs, its session failure appears inline, and the valid sibling
block is dispatched as well. -/
theorem claim_C2_amended_witness :
    (none, Json.obj [])
        ∈ (process_query (some sessStrict) loadsTwo (sendWith respTwo) [] "hi").calls
    ∧ execErrMsg "tool name must be a string"
        ∈ (process_query (some sessStrict) loadsTwo (sendWith respTwo) [] "hi").pieces
    ∧ (some (Json.str "echo"), Json.obj [])
        ∈ (process_query (some sessStrict) loadsTwo (sendWith respTwo) [] "hi").calls :=
  ⟨(claim_C2_amended sessStrict loadsTwo (sendWith respTwo) [] "hi" respTwo blockNoName
      [("parameters", Json.obj [])] rfl (by decide) rfl rfl).1,
   (claim_C2_amended sessStrict loadsTwo (sendWith respTwo) [] "hi" respTwo blockNoName
      [("parameters", Json.obj [])] rfl (by decide) rfl rfl).2.1
      "tool name must be a string" rfl,
   (claim_C2_amended sessStrict loadsTwo (sendWith respTwo) [] "hi" respTwo blockNoName
      [("parameters", Json.obj [])] rfl (by decide) rfl rfl).2.2
      blockOne [("tool_name", Json.str "echo")] (by decide) rfl⟩

/-- Claim C10: if the follow-up model call for an invocation fails after its
dispatch succeeded, the per-invocation handler appends the inline
execution-error diagnostic; the result marker is already in the answer, but
no follow-up model turn is appended to the history — on a one-block output
the history gains only the user turn and the original model turn, one model
turn instead of N+1 = 2. -/
theorem claim_C10_followup_failure (sess : Session)
    (loads : String → Except Unit (List (String × Json)))
    (send : Nat → List String → Except String String)
    (h : List Turn) (q : String) (r : String) (tc : String)
    (kvs : List (String × Json)) (result : ToolResult) (e : String)
    (hr : send 0 [systemPrompt sess.tools, q] = Except.ok r)
    (hb : toolCallsOf r = [tc])
    (hl : loads tc = Except.ok kvs)
    (hc : sess.call_tool (entryOf kvs).1 (entryOf kvs).2 = Except.ok result)
    (hs : send 1 [followupPrompt (entryOf kvs).1 result] = Except.error e) :
    process_query (some sess) loads send h q
      = ⟨String.intercalate "\n" [resultStr (entryOf kvs).1 result, execErrMsg e],
         [resultStr (entryOf kvs).1 result, execErrMsg e],
         h ++ [⟨Role.user, [q]⟩, ⟨Role.model, [r]⟩],
         [entryOf kvs]⟩ := by
  have hne : toolCallsOf r ≠ [] := by rw [hb]; exact List.cons_ne_nil tc []
  have hstep := processCalls_cons_serr sess loads send tc []
      (LoopState.mk [] (h ++ [Turn.mk Role.user [q], Turn.mk Role.model [r]]) 1 []) kvs result e hl hc hs
  rw [pq_loop sess loads send h q r hr hne, hb, hstep, processCalls_nil]
  simp

/-- Witness for claim C10: dispatch succeeds, the follow-up model call
fails, the marker and the diagnostic are both in the answer buffer, and the
history holds no follow-up turn. -/
theorem claim_C10_followup_failure_witness :
    process_query (some sessOk) loadsEcho (sendFirstOnly respOne) [] "hi"
      = ⟨String.intercalate "\n"
           [resultStr (some (Json.str "echo")) ⟨"RESULT"⟩, execErrMsg "model unavailable"],
         [resultStr (some (Json.str "echo")) ⟨"RESULT"⟩, execErrMsg "model unavailable"],
         [⟨Role.user, ["hi"]⟩, ⟨Role.model, [respOne]⟩],
         [(some (Json.str "echo"), Json.obj [])]⟩ :=
  claim_C10_followup_failure sessOk loadsEcho (sendFirstOnly respOne) [] "hi" respOne
    blockOne [("tool_name", Json.str "echo")] ⟨"RESULT"⟩ "model unavailable"
    rfl (by decide) rfl rfl rfl

/-! ### Fuel adequacy

`findAll` runs the scanner with fuel equal to the length of the input.  The
lemmas below verify that this fuel is never exhausted — every step of the
scan consumes at least one character — so the scan is a faithful model of
the unbounded left-to-right scan of `re.findall`: any larger fuel yields the
same captures. -/

theorem length_dropWhile_le (p : Char → Bool) (l : List Char) :
    (l.dropWhile p).length ≤ l.length := by
  induction l with
  | nil => simp
  | cons a t ih =>
    by_cases hp : p a
    · simp [List.dropWhile_cons, hp]
      omega
    · simp [List.dropWhile_cons, hp]

theorem stripLit_length (lit : List Char) :
    ∀ s s1, stripLit lit s = some s1 → s1.length + lit.length = s.length := by
  induction lit with
  | nil =>
    intro s s1 h
    simp [stripLit] at h
    simp [h]
  | cons l ls ih =>
    intro s s1 h
    match s with
    | [] => exact absurd h (by simp [stripLit])
    | c :: cs =>
      unfold stripLit at h
      split at h
      · have := ih cs s1 h
        simp [List.length_cons]
        omega
      · exact absurd h (by simp)

theorem attemptClose_rest_lt (run rest0 : List Char) (L : Nat) (body rest : List Char)
    (h : attemptClose run rest0 L = some (body, rest)) :
    rest.length < run.length + rest0.length := by
  unfold attemptClose at h
  split at h
  · next c after heq =>
    split at h
    · split at h
      · next rest2 heq2 =>
        have h1 := stripLit_length fenceLit _ _ heq2
        have h2 : rest2 = rest := by simp_all
        subst h2
        have h3 : (after.dropWhile isSpaceChar).length ≤ after.length :=
          length_dropWhile_le _ _
        have h4 : after.length + 1 = (run.drop L).length + rest0.length := by
          have h4a := congrArg List.length heq
          rw [List.length_append, List.length_cons] at h4a
          omega
        have h5 : (run.drop L).length ≤ run.length := by
          rw [List.length_drop]
          omega
        have hf : fenceLit.length = 3 := rfl
        omega
      · exact absurd h (by simp)
    · exact absurd h (by simp)
  · exact absurd h (by simp)

theorem tryClose_rest_lt (run rest0 : List Char) (L : Nat) (body rest : List Char)
    (h : tryClose run rest0 L = some (body, rest)) :
    rest.length < run.length + rest0.length := by
  induction L with
  | zero => exact attemptClose_rest_lt run rest0 0 body rest h
  | succ L ih =>
    unfold tryClose at h
    split at h
    · next res heq =>
      rw [h] at heq
      exact attemptClose_rest_lt run rest0 (L + 1) body rest heq
    · exact ih h

theorem matchAt_rest_lt (s cap rest : List Char)
    (h : matchAt s = some (cap, rest)) : rest.length < s.length := by
  unfold matchAt at h
  split at h
  · simp at h
  · next s1 heq1 =>
    split at h
    · simp at h
    · next c s3 heq2 =>
      split at h
      · split at h
        · next body rest2 heq3 =>
          have h2 : rest2 = rest := by simp_all
          rw [← h2]
          have h3 := tryClose_rest_lt _ _ _ _ _ heq3
          have h3s : rest2.length < s3.length := by
            have h4a : (List.takeWhile (fun d => decide (d ≠ backtick)) s3).length
                + (List.dropWhile (fun d => decide (d ≠ backtick)) s3).length = s3.length := by
              rw [← List.length_append, List.takeWhile_append_dropWhile]
            omega
          have h5 := stripLit_length openLit _ _ heq1
          have h6 : s3.length + 1 = (s1.dropWhile isSpaceChar).length := by
            have := congrArg List.length heq2
            simp at this
            omega
          have h7 : (s1.dropWhile isSpaceChar).length ≤ s1.length :=
            length_dropWhile_le _ _
          have ho : openLit.length = 7 := rfl
          omega
        · simp at h
      · simp at h

theorem findAllAux_add (n : Nat) :
    ∀ (k : Nat) (s : List Char), s.length ≤ n → findAllAux (n + k) s = findAllAux n s := by
  induction n with
  | zero =>
    intro k s hs
    have h0 : s = [] := List.length_eq_zero.mp (Nat.le_zero.mp hs)
    subst h0
    cases k <;> simp [findAllAux]
  | succ n ih =>
    intro k s hs
    match s with
    | [] =>
      have h1 : n + 1 + k = (n + k) + 1 := by omega
      rw [h1]
      simp [findAllAux]
    | c :: rest =>
      have h1 : n + 1 + k = (n + k) + 1 := by omega
      rw [h1]
      unfold findAllAux
      split
      · next cap after heq =>
        have hlt := matchAt_rest_lt _ _ _ heq
        rw [List.length_cons] at hlt
        simp at hs
        have : after.length ≤ n := by omega
        rw [ih k after this]
      · next heq =>
        simp at hs
        have : rest.length ≤ n := by omega
        rw [ih k rest this]

theorem findAllAux_fuel (fuel : Nat) (s : List Char) (hs : s.length ≤ fuel) :
    findAllAux fuel s = findAll s := by
  have h1 : fuel = s.length + (fuel - s.length) := by omega
  rw [h1, findAllAux_add s.length (fuel - s.length) s (Nat.le_refl _)]
  rfl

end Napier
